import Mathlib

/-!
Verification of the YouTube-transcript pipeline and session store of
`server.py` (optiease-ai-local-chrome-chatbot).  Python functions are
shallowly embedded as executable Lean definitions over `List Char` /
`String`; stdlib calls (`re`, `urllib.parse`, `os.path`, `json`) are
modelled by the behaviour they exhibit at the call sites in the source.
-/

set_option maxRecDepth 100000

deriving instance DecidableEq for Except

namespace Server

/-- Characters matched by Python's regex class `\s` on `str` (also the set
stripped by `str.strip()` with no arguments). -/
def isPySpace (c : Char) : Bool :=
  c = ' ' || c = '\t' || c = '\n' || c = '\r' || c = '\x0b' || c = '\x0c' ||
  c = '\x1c' || c = '\x1d' || c = '\x1e' || c = '\x1f' || c = '\x85' || c = '\xa0' ||
  c = ' ' || (' ' ≤ c && c ≤ ' ') || c = ' ' || c = ' ' ||
  c = ' ' || c = ' ' || c = '　'

/-- Remove the characters satisfying `p` from both ends of a list, as
`str.strip(chars)` does. -/
def pyStripOn (p : Char → Bool) (l : List Char) : List Char :=
  ((l.dropWhile p).reverse.dropWhile p).reverse

/-- `str.strip()` on the character list. -/
def pyStripWs (l : List Char) : List Char := pyStripOn isPySpace l

/-- `re.sub(r'\s+', ' ', s)`: every maximal run of whitespace becomes a
single space. -/
def collapseWs : List Char → List Char
  | [] => []
  | [c] => if isPySpace c then [' '] else [c]
  | c :: d :: rest =>
    if isPySpace c then
      if isPySpace d then collapseWs (d :: rest) else ' ' :: collapseWs (d :: rest)
    else c :: collapseWs (d :: rest)

/-- `re.sub(r'\s+', ' ', s).strip()` — the normalization applied to every
decoded transcript at line 383 of the source. -/
def pyCollapse (s : String) : String := String.mk (pyStripWs (collapseWs s.data))

/-- One-pass scanner computing `re.sub(r'<[^>]+>', '', s)`.  The first
argument is `none` outside a candidate tag and `some buf` after an
unclosed `'<'`, with `buf` the (reversed) non-`'>'` characters read since
then; an unclosed candidate at the end of input is emitted literally,
matching the regex (which then finds no match in that tail). -/
def stripTagsAux : Option (List Char) → List Char → List Char
  | none, [] => []
  | some buf, [] => '<' :: buf.reverse
  | none, c :: rest =>
    if c = '<' then stripTagsAux (some []) rest else c :: stripTagsAux none rest
  | some buf, c :: rest =>
    if c = '>' then
      if buf.isEmpty then '<' :: '>' :: stripTagsAux none rest
      else stripTagsAux none rest
    else stripTagsAux (some (c :: buf)) rest

/-- `re.sub(r'<[^>]+>', '', s)`: delete every `<`, one-or-more non-`>`
characters, `>` group, scanning left to right. -/
def stripTags (l : List Char) : List Char := stripTagsAux none l

/-- Python substring test `pat in s`. -/
def containsSub (pat : List Char) : List Char → Bool
  | [] => pat.isEmpty
  | l@(_ :: rest) => pat.isPrefixOf l || containsSub pat rest

/-- `s.split(sep)` for a single separator character (Python semantics:
`''.split(c) = ['']`). -/
def splitOnChar (sep : Char) : List Char → List (List Char)
  | [] => [[]]
  | c :: rest =>
    let r := splitOnChar sep rest
    if c = sep then [] :: r
    else
      match r with
      | [] => [[c]]
      | h :: t => (c :: h) :: t

/-- `pair.split('=', 1)` when `'='` occurs in the pair, as used by
`urllib.parse.parse_qsl`. -/
def splitFirstEq (l : List Char) : Option (List Char × List Char) :=
  if l.contains '=' then
    some (l.takeWhile (fun c => c ≠ '='), (l.dropWhile (fun c => c ≠ '=')).drop 1)
  else none

/-- The `'+' -> ' '` substitution `parse_qs` applies to each name and
value before `unquote`. -/
def plusToSpace (c : Char) : Char := if c = '+' then ' ' else c

/-- Hex-digit test for a `%HH` escape (`string.hexdigits`). -/
def isHexDigit (c : Char) : Bool :=
  ('0' ≤ c && c ≤ '9') || ('a' ≤ c && c ≤ 'f') || ('A' ≤ c && c ≤ 'F')

/-- Numeric value of a hex digit. -/
def hexVal (c : Char) : Nat :=
  if c ≤ '9' then c.toNat - 48
  else if c ≤ 'F' then c.toNat - 55
  else c.toNat - 87

/-- UTF-8 decoding of a byte list with `errors='replace'`, as
`bytes.decode('utf-8', 'replace')` does inside `urllib.parse.unquote`:
valid sequences (with the E0/ED/F0/F4 continuation-range restrictions
that exclude overlong forms, surrogates and values above U+10FFFF)
become their code point; an invalid byte, or a valid prefix cut short by
an out-of-range byte, becomes one U+FFFD and decoding resumes at the
offending byte.  Fuel-driven (one unit per step, each step consumes at
least one byte); `pyUnquote` supplies the byte count as fuel. -/
def utf8Replace : Nat → List Nat → List Char
  | 0, _ => []
  | _ + 1, [] => []
  | fuel + 1, b :: rest =>
    if b ≤ 0x7F then Char.ofNat b :: utf8Replace fuel rest
    else if 0xC2 ≤ b && b ≤ 0xDF then
      match rest with
      | c1 :: rest2 =>
        if 0x80 ≤ c1 && c1 ≤ 0xBF then
          Char.ofNat ((b - 0xC0) * 64 + (c1 - 0x80)) :: utf8Replace fuel rest2
        else Char.ofNat 0xFFFD :: utf8Replace fuel rest
      | [] => Char.ofNat 0xFFFD :: utf8Replace fuel rest
    else if 0xE0 ≤ b && b ≤ 0xEF then
      let lo1 := if b = 0xE0 then 0xA0 else 0x80
      let hi1 := if b = 0xED then 0x9F else 0xBF
      match rest with
      | c1 :: rest2 =>
        if lo1 ≤ c1 && c1 ≤ hi1 then
          match rest2 with
          | c2 :: rest3 =>
            if 0x80 ≤ c2 && c2 ≤ 0xBF then
              Char.ofNat ((b - 0xE0) * 4096 + (c1 - 0x80) * 64 + (c2 - 0x80)) ::
                utf8Replace fuel rest3
            else Char.ofNat 0xFFFD :: utf8Replace fuel rest2
          | [] => Char.ofNat 0xFFFD :: utf8Replace fuel rest2
        else Char.ofNat 0xFFFD :: utf8Replace fuel rest
      | [] => Char.ofNat 0xFFFD :: utf8Replace fuel rest
    else if 0xF0 ≤ b && b ≤ 0xF4 then
      let lo1 := if b = 0xF0 then 0x90 else 0x80
      let hi1 := if b = 0xF4 then 0x8F else 0xBF
      match rest with
      | c1 :: rest2 =>
        if lo1 ≤ c1 && c1 ≤ hi1 then
          match rest2 with
          | c2 :: rest3 =>
            if 0x80 ≤ c2 && c2 ≤ 0xBF then
              match rest3 with
              | c3 :: rest4 =>
                if 0x80 ≤ c3 && c3 ≤ 0xBF then
                  Char.ofNat ((b - 0xF0) * 262144 + (c1 - 0x80) * 4096 +
                    (c2 - 0x80) * 64 + (c3 - 0x80)) :: utf8Replace fuel rest4
                else Char.ofNat 0xFFFD :: utf8Replace fuel rest3
              | [] => Char.ofNat 0xFFFD :: utf8Replace fuel rest3
            else Char.ofNat 0xFFFD :: utf8Replace fuel rest2
          | [] => Char.ofNat 0xFFFD :: utf8Replace fuel rest2
        else Char.ofNat 0xFFFD :: utf8Replace fuel rest
      | [] => Char.ofNat 0xFFFD :: utf8Replace fuel rest
    else Char.ofNat 0xFFFD :: utf8Replace fuel rest

/-- The maximal leading run of valid `%HH` escapes: its byte values and
the remainder of the string. -/
def pctGroup : List Char → List Nat × List Char
  | '%' :: h1 :: h2 :: rest =>
    if isHexDigit h1 && isHexDigit h2 then
      let g := pctGroup rest
      ((hexVal h1 * 16 + hexVal h2) :: g.1, g.2)
    else ([], '%' :: h1 :: h2 :: rest)
  | l => ([], l)

/-- `urllib.parse.unquote(s)` (with the utf-8/replace defaults used by
`parse_qs`): each maximal run of valid `%HH` escapes is decoded as a
UTF-8 byte string with replacement; an invalid escape leaves its `%`
literal; all other characters pass through.  Fuel-driven; each step
consumes at least one character. -/
def pyUnquoteFuel : Nat → List Char → List Char
  | 0, l => l
  | _ + 1, [] => []
  | fuel + 1, l@(c :: rest) =>
    match pctGroup l with
    | ([], _) => c :: pyUnquoteFuel fuel rest
    | (bs, rem) => utf8Replace bs.length bs ++ pyUnquoteFuel fuel rem

/-- `urllib.parse.unquote` on a character list. -/
def pyUnquote (l : List Char) : List Char := pyUnquoteFuel l.length l

/-- The (name, value) pairs produced by `urllib.parse.parse_qs` with its
defaults: split on `'&'`, skip empty fragments, skip fragments without
`'='`, skip blank values (`keep_blank_values=False`, checked on the raw
value), then `'+' -> ' '` and percent-decode each name and value. -/
def parseQsPairs (qs : List Char) : List (List Char × List Char) :=
  (splitOnChar '&' qs).filterMap (fun piece =>
    if piece.isEmpty then none
    else
      match splitFirstEq piece with
      | none => none
      | some (n, v) =>
        if v.isEmpty then none
        else some (pyUnquote (n.map plusToSpace), pyUnquote (v.map plusToSpace)))

/-- `parse_qs(qs).get(key, [None])[0]`: the first value bound to `key`. -/
def parseQsGetFirst (qs : List Char) (key : List Char) : Option (List Char) :=
  ((parseQsPairs qs).find? (fun p => p.1 = key)).map (fun p => p.2)

/-- `urlparse(url).query`: the part after the first `'?'` of the
fragment-free prefix (fragment = everything from the first `'#'`). -/
def urlQuery (url : List Char) : List Char :=
  let beforeFrag := url.takeWhile (fun c => c ≠ '#')
  match beforeFrag.dropWhile (fun c => c ≠ '?') with
  | [] => []
  | _ :: t => t

/-- The character class `[a-zA-Z0-9_-]` of the short-link regex. -/
def isIdChar (c : Char) : Bool :=
  ('a' ≤ c && c ≤ 'z') || ('A' ≤ c && c ≤ 'Z') || ('0' ≤ c && c ≤ '9') ||
  c = '_' || c = '-'

/-- `re.search(r'youtu\.be/([a-zA-Z0-9_-]+)', url)`: leftmost position
where the literal `youtu.be/` is followed by at least one id character;
the captured group is the maximal id-character run there. -/
def findShortId : List Char → Option (List Char)
  | [] => none
  | l@(_ :: rest) =>
    if ("youtu.be/".data).isPrefixOf l then
      let id := (l.drop 9).takeWhile isIdChar
      if id.isEmpty then findShortId rest else some id
    else findShortId rest

/-- `extract_youtube_video_id` (server.py lines 229-247).  Note the two
independent `if` statements: a failed short-link match falls through to
the long-form branch. -/
def extract_youtube_video_id (url : String) : Option String :=
  let u := url.data
  let short :=
    if containsSub ("youtu.be".data) u then findShortId u else none
  match short with
  | some id => some (String.mk id)
  | none =>
    if containsSub ("youtube.com".data) u then
      (parseQsGetFirst (urlQuery u) ("v".data)).map String.mk
    else none

/-- `clean_youtube_url` (server.py lines 197-226).  Note `if`/`elif`: a
url containing `youtu.be` never reaches the `youtube.com` branch, and
when no id is found the url is returned unchanged. -/
def clean_youtube_url (url : String) : String :=
  let u := url.data
  let videoId : Option (List Char) :=
    if containsSub ("youtu.be".data) u then findShortId u
    else if containsSub ("youtube.com".data) u then
      parseQsGetFirst (urlQuery u) ("v".data)
    else none
  match videoId with
  | some id => "https://www.youtube.com/watch?v=" ++ String.mk id
  | none => url

/-- One segment of a YouTube json3 event, as produced by `json.loads`:
the `utf8` field may be absent. -/
structure JSeg where
  utf8 : Option String
deriving DecidableEq

/-- One YouTube json3 event: the `segs` list may be absent. -/
structure JEvent where
  segs : Option (List JSeg)
deriving DecidableEq

/-- The json3 decoder (server.py lines 323-337, before the final
whitespace collapse): every present `utf8` fragment is stripped and the
fragments are joined with single spaces. -/
def decodeJson3 (events : List JEvent) : String :=
  let texts := (events.map (fun e =>
    match e.segs with
    | none => []
    | some segs => segs.filterMap (fun s =>
        s.utf8.map (fun t => String.mk (pyStripWs t.data))))).flatten
  String.intercalate " " texts

/-- Replace every occurrence of the literal pattern `pat` by `repl`, left
to right without overlap, as `re.sub` does for a plain pattern.  Driven
by a fuel counter (one unit per character consumed) so that the
definition stays structurally recursive; `replaceAll` supplies enough
fuel for the whole input. -/
def replaceAllFuel (pat repl : List Char) : Nat → List Char → List Char
  | 0, l => l
  | _ + 1, [] => []
  | fuel + 1, l@(c :: rest) =>
    if !pat.isEmpty && pat.isPrefixOf l then
      repl ++ replaceAllFuel pat repl fuel (l.drop pat.length)
    else c :: replaceAllFuel pat repl fuel rest

/-- `re.sub(pat, repl, s)` for a literal pattern. -/
def replaceAll (pat repl l : List Char) : List Char :=
  replaceAllFuel pat repl l.length l

/-- Locate the first occurrence of the literal `</text>`; returns the
characters before it and the characters after it. -/
def findClose : List Char → Option (List Char × List Char)
  | [] => none
  | l@(c :: rest) =>
    if ("</text>".data).isPrefixOf l then some ([], l.drop 7)
    else
      match findClose rest with
      | some (pre, after) => some (c :: pre, after)
      | none => none

/-- `re.findall(r'<text[^>]*>(.*?)</text>', content, re.DOTALL)`: at each
position where the literal `<text` is followed by non-`'>'` characters
and a `'>'`, capture (non-greedily) up to the next `</text>`; scanning
resumes after the close tag.  Fuel-driven like `replaceAllFuel`. -/
def extractTextCuesFuel : Nat → List Char → List (List Char)
  | 0, _ => []
  | _ + 1, [] => []
  | fuel + 1, l@(_ :: rest) =>
    if ("<text".data).isPrefixOf l then
      match (l.drop 5).dropWhile (fun c => c ≠ '>') with
      | '>' :: body =>
        match findClose body with
        | some (content, after) => content :: extractTextCuesFuel fuel after
        | none => extractTextCuesFuel fuel rest
      | _ => extractTextCuesFuel fuel rest
    else extractTextCuesFuel fuel rest

/-- All `<text ...>...</text>` cue bodies of an SRV document. -/
def extractTextCues (l : List Char) : List (List Char) :=
  extractTextCuesFuel l.length l

/-- The per-cue cleanup of the SRV decoder (server.py lines 350-356):
the five entity substitutions in source order, inline-tag removal, then
`strip()`. -/
def srvCueText (cue : List Char) : List Char :=
  let t := replaceAll ("&amp;".data) ("&".data) cue
  let t := replaceAll ("&lt;".data) ("<".data) t
  let t := replaceAll ("&gt;".data) (">".data) t
  let t := replaceAll ("&quot;".data) ("\"".data) t
  let t := replaceAll ("&#39;".data) [Char.ofNat 39] t
  pyStripWs (stripTags t)

/-- The SRV (XML) decoder (server.py lines 342-359, before the final
whitespace collapse): cleaned cue texts, empties skipped, joined with
single spaces. -/
def decodeSrv (content : List Char) : String :=
  let cues := (extractTextCues content).map srvCueText
  String.intercalate " " ((cues.filter (fun c => !c.isEmpty)).map String.mk)

/-- `re.match(r'^\d+$', line)` (ASCII digits). -/
def isAllDigits (l : List Char) : Bool := !l.isEmpty && l.all Char.isDigit

/-- The line filter of the VTT decoder (server.py line 371): keep a
stripped line unless it is empty, a `WEBVTT` header, a timing line
(contains the cue arrow), a pure numeric cue index, or a `NOTE`. -/
def vttKeep (line : List Char) : Bool :=
  !line.isEmpty && !(("WEBVTT".data).isPrefixOf line) &&
  !containsSub ("-->".data) line && !isAllDigits line &&
  !(("NOTE".data).isPrefixOf line)

/-- The VTT decoder (server.py lines 364-376, before the final whitespace
collapse): split into lines, strip, filter, remove inline tags, skip
lines made empty by tag removal, join with single spaces. -/
def decodeVtt (content : List Char) : String :=
  let lines := (splitOnChar '\n' content).map pyStripWs
  let kept := lines.filterMap (fun ln =>
    if vttKeep ln then
      let ln2 := stripTags ln
      if ln2.isEmpty then none else some (String.mk ln2)
    else none)
  String.intercalate " " kept

/-- Python exception values that can cross the strategy boundaries of
`get_youtube_transcript`: the three `youtube_transcript_api` error
classes handled at lines 493-498, and a generic `Exception(msg)`. -/
inductive PyExc where
  | transcriptsDisabled
  | noTranscriptFound
  | videoUnavailable
  | generic (msg : String)
deriving DecidableEq

/-- The format dispatch of the yt-dlp strategy (server.py lines 323-380),
before the final whitespace collapse.  `jsonParse` models `json.loads`
applied to a json3 document (an `.error` is the raised parse failure,
re-raised by the inner handler).  Branch order as in the source:
`json3`, then the `srv` family, then `WEBVTT in content or ext == 'vtt'`,
else pass-through. -/
def decodeDispatch (jsonParse : String → Except PyExc (List JEvent))
    (selectedExt : Option String) (content : String) : Except PyExc String :=
  if selectedExt = some "json3" then
    match jsonParse content with
    | .ok events => .ok (decodeJson3 events)
    | .error e => .error e
  else if selectedExt = some "srv1" ∨ selectedExt = some "srv2" ∨
      selectedExt = some "srv3" then
    .ok (decodeSrv content.data)
  else if containsSub ("WEBVTT".data) content.data ∨ selectedExt = some "vtt" then
    .ok (decodeVtt content.data)
  else
    .ok content

/-- Lines 320-383 of the source: decode, then apply the shared
`re.sub(r'\s+', ' ', ...).strip()` normalization. -/
def decodeAndClean (jsonParse : String → Except PyExc (List JEvent))
    (selectedExt : Option String) (content : String) : Except PyExc String :=
  match decodeDispatch jsonParse selectedExt content with
  | .ok t => .ok (pyCollapse t)
  | .error e => .error e

/-- One subtitle track offered by yt-dlp: `sub.get('ext')` and
`sub['url']`. -/
structure SubTrack where
  ext : Option String
  url : String
deriving DecidableEq

/-- `priority_formats = ['json3', 'srv3', 'vtt', 'srv2', 'srv1']`
(server.py line 288). -/
def priorityFormats : List String := ["json3", "srv3", "vtt", "srv2", "srv1"]

/-- The nested priority loop (server.py lines 290-297): for each format in
priority order, the first track with that extension tag wins. -/
def pickPriority (subs : List SubTrack) : List String → Option (String × String)
  | [] => none
  | fmt :: rest =>
    match subs.find? (fun s => s.ext == some fmt) with
    | some s => some (s.url, fmt)
    | none => pickPriority subs rest

/-- Track selection (server.py lines 284-305): priority formats first,
otherwise the first track whose extension is not `m3u8`. -/
def selectSubtitle (subs : List SubTrack) : Option (String × Option String) :=
  match pickPriority subs priorityFormats with
  | some (u, fmt) => some (u, some fmt)
  | none =>
    match subs.find? (fun s => !(s.ext == some "m3u8")) with
    | some s => some (s.url, s.ext)
    | none => none

/-- `content.startswith('#EXTM3U') or '#EXT-X-' in content`
(server.py line 316). -/
def hlsMarker (s : String) : Bool :=
  ("#EXTM3U".data).isPrefixOf s.data || containsSub ("#EXT-X-".data) s.data

/-- `if full_text and len(full_text) > 50` (server.py line 385): the
length validation applied to the collapsed text. -/
def qualityCheck (t : String) : Bool :=
  !(t == "") && decide (t.length > 50)

/-- The combined validation a transcript string passes through on the
pass-through decode path: the HLS-body sniff of line 316 followed by the
collapse-and-length check of lines 383-385.  This is the content quality
gate of the specification. -/
def contentGate (s : String) : Bool :=
  !hlsMarker s && qualityCheck (pyCollapse s)

/-- The success dictionary of `get_youtube_transcript`. -/
structure TranscriptResult where
  text : String
  videoId : String
  language : String
  isGenerated : Bool
deriving DecidableEq

/-- The environment of the yt-dlp strategy: outcome of
`ydl.extract_info` (`.error` = raised; `.ok none` = the
`subtitles/automatic_captions` chain was falsy; `.ok (some subs)` =
tracks offered), the `requests.get` call (status code and body, or a
raised exception), and `json.loads`. -/
structure Strat1Env where
  info : Except PyExc (Option (List SubTrack))
  download : String → Except PyExc (Nat × String)
  jsonParse : String → Except PyExc (List JEvent)

/-- Outcome of the yt-dlp block: a returned result, a raised exception
(caught by the `except` at line 399), or silent fall-off of the nested
`if`s (no return, no raise). -/
inductive Strat1Out where
  | success (t : TranscriptResult)
  | raised (e : PyExc)
  | noResult
deriving DecidableEq

/-- The yt-dlp strategy body (server.py lines 264-398). -/
def strategy1 (env : Strat1Env) (videoId : String) : Strat1Out :=
  match env.info with
  | .error e => .raised e
  | .ok none => .noResult
  | .ok (some subs) =>
    match selectSubtitle subs with
    | none => .noResult
    | some (u, ext) =>
      match env.download u with
      | .error e => .raised e
      | .ok (status, content) =>
        if status ≠ 200 then .noResult
        else if hlsMarker content then
          .raised (.generic "M3U8 playlist received instead of subtitles")
        else
          match decodeAndClean env.jsonParse ext content with
          | .error e => .raised e
          | .ok fullText =>
            if qualityCheck fullText then
              .success ⟨fullText, videoId, "en", true⟩
            else .raised (.generic "Insufficient content extracted")

/-- Lines 402-501: availability guard, then the captions-API strategy
(`s2` is the outcome of the large `try` body at lines 406-491) with the
exception mapping of lines 493-498. -/
def runStrategy2 (apiAvailable : Bool) (s2 : Except PyExc TranscriptResult) :
    Except String TranscriptResult × Bool :=
  if !apiAvailable then
    (.error "No YouTube transcript extraction method available. Install youtube-transcript-api or yt-dlp", false)
  else
    match s2 with
    | .ok t => (.ok t, true)
    | .error .transcriptsDisabled =>
      (.error "Transcripts are disabled for this video", true)
    | .error .noTranscriptFound =>
      (.error "No transcripts found for this video. The video may not have captions/subtitles available.", true)
    | .error .videoUnavailable =>
      (.error "Video is unavailable or private", true)
    | .error (.generic m) => (.error m, true)

/-- `get_youtube_transcript` (server.py lines 250-501) as an orchestrator
over the two strategies.  The boolean of the pair records whether the
captions-API strategy was actually run.  Note that the `except` at line
399 catches every exception of the first strategy, so any non-success
outcome of `strategy1` falls through to the second strategy. -/
def get_youtube_transcript (url : String) (ytdlpAvailable apiAvailable : Bool)
    (env : Strat1Env) (s2 : Except PyExc TranscriptResult) :
    Except String TranscriptResult × Bool :=
  match extract_youtube_video_id url with
  | none => (.error ("Could not extract video ID from URL: " ++ url), false)
  | some vid =>
    if ytdlpAvailable then
      match strategy1 env vid with
      | .success t => (.ok t, false)
      | _ => runStrategy2 apiAvailable s2
    else runStrategy2 apiAvailable s2

/-- `filename.startswith(('http://', 'https://', 'ftp://'))`
(server.py line 59). -/
def urlSchemeStart (s : List Char) : Bool :=
  ("http://".data).isPrefixOf s || ("https://".data).isPrefixOf s ||
  ("ftp://".data).isPrefixOf s

/-- `(netloc, path, query)` of `urlparse` for a string that begins with
one of the schemes above: drop through `://`, netloc up to the first
`/`, `?` or `#`, path up to `?` or `#` of the fragment-free remainder,
query as in `urlQuery`. -/
def parseUrlParts (u : List Char) : List Char × List Char × List Char :=
  let u1 := u.takeWhile (fun c => c ≠ '#')
  let afterScheme := ((u1.dropWhile (fun c => c ≠ ':')).drop 3)
  let netloc := afterScheme.takeWhile (fun c => c ≠ '/' && c ≠ '?')
  let rest := afterScheme.dropWhile (fun c => c ≠ '/' && c ≠ '?')
  let path := rest.takeWhile (fun c => c ≠ '?')
  let query :=
    match rest.dropWhile (fun c => c ≠ '?') with
    | [] => []
    | _ :: t => t
  (netloc, path, query)

/-- The URL branch of `sanitize_filename` (server.py lines 59-82): derive
a synthetic name from a URL. -/
def urlDerivedName (u : List Char) : List Char :=
  let (netloc, path, query) := parseUrlParts u
  if containsSub ("youtube.com".data) netloc || containsSub ("youtu.be".data) netloc then
    let videoId : Option (List Char) :=
      if containsSub ("youtu.be".data) netloc then
        some (pyStripOn (fun c => c = '/') path)
      else if containsSub ("v=".data) query then
        parseQsGetFirst query ("v".data)
      else none
    match videoId with
    | some id => if id.isEmpty then ("youtube_video.txt".data)
                 else ("youtube_".data) ++ id ++ (".txt".data)
    | none => "youtube_video.txt".data
  else
    let pathParts := (splitOnChar '/' path).filter (fun p => !p.isEmpty)
    match pathParts.getLast? with
    | some last => last
    | none => (netloc.map (fun c => if c = '.' then '_' else c)) ++ (".txt".data)

/-- The class `[<>:"/\\|?*\x00-\x1f]` of server.py line 86. -/
def isReservedChar (c : Char) : Bool :=
  c = '<' || c = '>' || c = ':' || c = '"' || c = '/' || c = '\\' ||
  c = '|' || c = '?' || c = '*' || decide (c.toNat ≤ 31)

/-- `re.sub(r'[<>:"/\\|?*\x00-\x1f]', '_', filename)`. -/
def replaceReserved (l : List Char) : List Char :=
  l.map (fun c => if isReservedChar c then '_' else c)

/-- `filename.strip('. ')`. -/
def stripDotSpace (l : List Char) : List Char :=
  pyStripOn (fun c => c = '.' || c = ' ') l

/-- `os.path.splitext` for a name without path separators: split at the
last dot, unless every character before that dot is itself a dot. -/
def splitext (p : List Char) : List Char × List Char :=
  let tailLen := (p.reverse.takeWhile (fun c => c ≠ '.')).length
  if tailLen = p.length then (p, [])
  else
    let cut := p.length - tailLen - 1
    if (p.take cut).all (fun c => c = '.') then (p, [])
    else (p.take cut, p.drop cut)

/-- Python slicing `l[:k]` for a possibly negative bound. -/
def pySliceTo (l : List Char) (k : Int) : List Char :=
  if 0 ≤ k then l.take k.toNat else l.take (l.length - (-k).toNat)

/-- The truncation step of `sanitize_filename` (server.py lines 96-101). -/
def truncate255 (l : List Char) : List Char :=
  if decide (l.length > 255) then
    let (name, ext) := splitext l
    if ext.isEmpty then l.take 255
    else pySliceTo name (255 - (ext.length : Int)) ++ ext
  else l

/-- `sanitize_filename` (server.py lines 51-103). -/
def sanitize_filename (filename : String) : String :=
  let f0 := filename.data
  let f1 := if urlSchemeStart f0 then urlDerivedName f0 else f0
  let f2 := replaceReserved f1
  let f3 := stripDotSpace f2
  let f4 := if f3.isEmpty then ("unnamed_file".data) else f3
  String.mk (truncate255 f4)

/-- One attachment of a message (`name` and inline content). -/
structure Attachment where
  name : String
  content : String
deriving DecidableEq

/-- One chat message; only the fields the session endpoints touch. -/
structure Message where
  role : String
  content : String
  files : List Attachment
deriving DecidableEq

/-- The record serialized to `session.json` (server.py lines 890-896). -/
structure SessionData where
  chatId : String
  title : String
  createdAt : String
  updatedAt : String
  messages : List Message
deriving DecidableEq

/-- A `session.json` file on disk: parsed content, or a file whose read
or `json.load` raises. -/
inductive RecordFile where
  | parsed (d : SessionData)
  | corrupt
deriving DecidableEq

/-- One directory of the storage root: name, directory flag, and its
`session.json` (absent when the file does not exist). -/
structure DirEntry where
  name : String
  isDir : Bool
  record : Option RecordFile
deriving DecidableEq

/-- The summary built for each session by `load_sessions`
(server.py lines 949-955). -/
structure SessionSummary where
  chatId : String
  title : String
  createdAt : String
  updatedAt : String
  messageCount : Nat
deriving DecidableEq

/-- The projection of lines 949-955. -/
def summarize (d : SessionData) : SessionSummary :=
  ⟨d.chatId, d.title, d.createdAt, d.updatedAt, d.messages.length⟩

/-- The contribution of one directory entry to the `load_sessions`
result: a summary when the entry is a `chat_*` directory with a readable
record file, nothing otherwise.  Used to state what the collection loop
returns. -/
def summaryOf (e : DirEntry) : Option SessionSummary :=
  if ("chat_".data).isPrefixOf e.name.data && e.isDir then
    match e.record with
    | some (.parsed d) => some (summarize d)
    | _ => none
  else none

/-- The collection loop of `load_sessions` (server.py lines 943-955):
`chat_*` directories are visited; a missing `session.json` is skipped;
a file whose read fails raises, aborting the whole call (there is no
per-file handler inside the `try` of line 938). -/
def collectSummaries : List DirEntry → Except String (List SessionSummary)
  | [] => .ok []
  | e :: rest =>
    if ("chat_".data).isPrefixOf e.name.data && e.isDir then
      match e.record with
      | none => collectSummaries rest
      | some .corrupt => .error "Error loading sessions"
      | some (.parsed d) =>
        match collectSummaries rest with
        | .ok l => .ok (summarize d :: l)
        | .error m => .error m
    else collectSummaries rest

/-- `sessions.sort(key=lambda x: x.get('updated_at', ''), reverse=True)`
(server.py line 958): a stable sort, descending by `updated_at`. -/
def sortSummaries (l : List SessionSummary) : List SessionSummary :=
  l.insertionSort (fun a b => b.updatedAt ≤ a.updatedAt)

/-- `load_sessions` (server.py lines 932-969), over the configured
storage path and the directory entries found under it. -/
def load_sessions (storagePath : Option String) (fs : List DirEntry) :
    Except String (List SessionSummary) :=
  match storagePath with
  | none => .error "Storage path not configured"
  | some _ =>
    match collectSummaries fs with
    | .ok l => .ok (sortSummaries l)
    | .error m => .error m

/-- Replace the entry with the given name, or append a new one: the
effect of `mkdir(exist_ok=True)` plus an overwriting `session.json`
write for the folder `chat_<id>`. -/
def upsertEntry (fs : List DirEntry) (e : DirEntry) : List DirEntry :=
  match fs with
  | [] => [e]
  | x :: rest => if x.name = e.name then e :: rest else x :: upsertEntry rest e

/-- `save_session` (server.py lines 869-929), restricted to the record
file (attachment writing touches only the `uploads` subdirectory and is
not part of the round-trip claims).  `createdAt` is
`data.get('created_at', now)` and `now` is `datetime.now().isoformat()`. -/
def save_session (storagePath : Option String) (fs : List DirEntry)
    (chatId title createdAt now : String) (messages : List Message) :
    Except String (List DirEntry) :=
  match storagePath with
  | none => .error "Storage path not configured"
  | some _ =>
    if chatId = "" then .error "No chat_id provided"
    else
      .ok (upsertEntry fs
        ⟨"chat_" ++ chatId, true,
         some (.parsed ⟨chatId, title, createdAt, now, messages⟩)⟩)

/-- `load_session` (server.py lines 972-996): 404 when the record file
does not exist, an error when its read raises, otherwise the parsed
record. -/
def load_session (storagePath : Option String) (fs : List DirEntry)
    (chatId : String) : Except String SessionData :=
  match storagePath with
  | none => .error "Storage path not configured"
  | some _ =>
    match fs.find? (fun e => e.name == "chat_" ++ chatId) with
    | none => .error "Session not found"
    | some e =>
      match e.record with
      | none => .error "Session not found"
      | some .corrupt => .error "Error loading session"
      | some (.parsed d) => .ok d

end Server

section Theorems

open Server

/-- Looking up the name just upserted finds the upserted entry. -/
theorem find?_upsertEntry (fs : List DirEntry) (n : String) (b : Bool)
    (r : Option RecordFile) :
    (upsertEntry fs ⟨n, b, r⟩).find? (fun x => x.name == n) = some ⟨n, b, r⟩ := by
  induction fs with
  | nil => simp [upsertEntry]
  | cons x rest ih =>
    by_cases h : x.name = n
    · simp [upsertEntry, h]
    · simp only [upsertEntry, if_neg h]
      rw [List.find?_cons_of_neg]
      · exact ih
      · simp [h]

/-- C10: a session record saved successfully under a configured storage
root is returned unchanged (same chat identifier, title and messages, as
well as both timestamps) by a subsequent load of the same identifier. -/
theorem save_then_load_roundtrip (p : String) (fs fs2 : List DirEntry)
    (chatId title createdAt now : String) (messages : List Message)
    (hsave : save_session (some p) fs chatId title createdAt now messages = .ok fs2) :
    load_session (some p) fs2 chatId = .ok ⟨chatId, title, createdAt, now, messages⟩ := by
  unfold save_session at hsave
  by_cases h : chatId = ""
  · simp [h] at hsave
  · simp only [if_neg h] at hsave
    cases hsave
    unfold load_session
    rw [find?_upsertEntry]

/-- Witness for `save_then_load_roundtrip` at a concrete session. -/
theorem save_then_load_roundtrip_witness :
    load_session (some "/s")
      (upsertEntry [] ⟨"chat_42", true,
        some (.parsed ⟨"42", "T", "c0", "u0", []⟩)⟩) "42" =
    .ok ⟨"42", "T", "c0", "u0", []⟩ :=
  save_then_load_roundtrip "/s" [] _ "42" "T" "c0" "u0" [] rfl

/-- C7 theorem: when the input mentions a YouTube host but no video
identifier can be extracted, `get_youtube_transcript` fails with the
could-not-extract (invalid URL) error before trying any strategy. -/
theorem no_id_raises_invalid_url (url : String) (env : Strat1Env)
    (s2 : Except PyExc TranscriptResult) (b1 b2 : Bool)
    (hhost : containsSub ("youtube.com".data) url.data = true ∨
             containsSub ("youtu.be".data) url.data = true)
    (hnone : extract_youtube_video_id url = none) :
    get_youtube_transcript url b1 b2 env s2 =
      (.error ("Could not extract video ID from URL: " ++ url), false) := by
  unfold get_youtube_transcript
  rw [hnone]

/-- Witness for `no_id_raises_invalid_url`: a youtube.com playlist URL
with no `v` parameter. -/
theorem no_id_raises_invalid_url_witness :
    get_youtube_transcript "https://www.youtube.com/playlist?list=xyz" true true
      ⟨.ok none, fun _ => .error (.generic "network"), fun _ => .error (.generic "parse")⟩
      (.error .noTranscriptFound) =
    (.error ("Could not extract video ID from URL: " ++ "https://www.youtube.com/playlist?list=xyz"), false) :=
  no_id_raises_invalid_url _ _ _ _ _ (Or.inl (by decide)) (by decide)

/-- C2 counterexample: when the first (yt-dlp) strategy raises the
captions-disabled exception, the orchestrator still invokes the second
strategy — the claim that it is never invoked is false. -/
theorem disabled_first_strategy_still_tries_api :
    (get_youtube_transcript "https://www.youtube.com/watch?v=abc123" true true
      ⟨.error .transcriptsDisabled, fun _ => .error (.generic "network"),
       fun _ => .error (.generic "parse")⟩
      (.error .transcriptsDisabled)).2 = true := by
  rfl

/-- C2 amended theorem: every non-success outcome of the first strategy
(silent fall-off or any raised exception, the captions-disabled one
included) leads to the second strategy being invoked, and the final
outcome is exactly the second strategy's mapped outcome. -/
theorem first_strategy_failure_falls_through (url vid : String) (env : Strat1Env)
    (s2 : Except PyExc TranscriptResult)
    (hvid : extract_youtube_video_id url = some vid)
    (hfail : ∀ t, strategy1 env vid ≠ .success t) :
    (get_youtube_transcript url true true env s2).2 = true ∧
    get_youtube_transcript url true true env s2 = runStrategy2 true s2 := by
  have hmain : get_youtube_transcript url true true env s2 = runStrategy2 true s2 := by
    unfold get_youtube_transcript
    rw [hvid]
    simp only [if_pos rfl]
    cases h1 : strategy1 env vid with
    | success t => exact absurd h1 (hfail t)
    | raised e => rfl
    | noResult => rfl
  refine ⟨?_, hmain⟩
  rw [hmain]
  unfold runStrategy2
  cases s2 with
  | ok t => rfl
  | error e => cases e <;> rfl

/-- Witness for `first_strategy_failure_falls_through` at a concrete URL
and a first strategy that falls off silently (no subtitle tracks). -/
theorem first_strategy_failure_falls_through_witness :
    (get_youtube_transcript "https://www.youtube.com/watch?v=abc123" true true
      ⟨.ok none, fun _ => .error (.generic "network"), fun _ => .error (.generic "parse")⟩
      (.ok ⟨"t", "abc123", "en", false⟩)).2 = true :=
  (first_strategy_failure_falls_through "https://www.youtube.com/watch?v=abc123" "abc123"
    ⟨.ok none, fun _ => .error (.generic "network"), fun _ => .error (.generic "parse")⟩
    (.ok ⟨"t", "abc123", "en", false⟩) (by decide) (fun t h => by cases h)).1

/-- C9 counterexample: a `chat_*` directory whose record file raises on
read makes the whole `load_sessions` call fail — it is not skipped. -/
theorem corrupt_record_fails_whole_call :
    load_sessions (some "/s") [⟨"chat_1", true, some .corrupt⟩] =
    .error "Error loading sessions" := by
  rfl

/-- The collection loop succeeds and returns exactly the summaries of the
`chat_*` directories with a readable record when no record is corrupt. -/
theorem collectSummaries_ok (fs : List DirEntry)
    (hok : ∀ e ∈ fs, e.record ≠ some .corrupt) :
    collectSummaries fs = .ok (fs.filterMap summaryOf) := by
  induction fs with
  | nil => rfl
  | cons e rest ih =>
    have hrest : ∀ x ∈ rest, x.record ≠ some .corrupt :=
      fun x hx => hok x (List.mem_cons_of_mem _ hx)
    have he : e.record ≠ some RecordFile.corrupt := hok e (List.mem_cons_self _ _)
    have ihr := ih hrest
    rw [List.filterMap_cons]
    by_cases hc : (("chat_".data).isPrefixOf e.name.data && e.isDir) = true
    · cases hrec : e.record with
      | none =>
        have hf : summaryOf e = none := by simp [summaryOf, hc, hrec]
        rw [hf]
        simp only [collectSummaries, hc, if_true, hrec]
        exact ihr
      | some r =>
        cases r with
        | corrupt => exact absurd hrec he
        | parsed d =>
          have hf : summaryOf e = some (summarize d) := by simp [summaryOf, hc, hrec]
          rw [hf]
          simp only [collectSummaries, hc, if_true, hrec, ihr]
    · have hf : summaryOf e = none := by simp [summaryOf, hc]
      rw [hf]
      simp only [collectSummaries, hc, if_false, Bool.false_eq_true]
      exact ihr

/-- C9 amended theorem: with a configured root and no unreadable record
file, `load_sessions` returns one summary per `chat_*` directory whose
record file is present (missing files skipped), sorted by
updated-timestamp descending; an unreadable record file, however, fails
the whole call. -/
theorem load_sessions_spec (p : String) (fs : List DirEntry)
    (hok : ∀ e ∈ fs, e.record ≠ some .corrupt) :
    ∃ l, load_sessions (some p) fs = .ok l ∧
      l.Perm (fs.filterMap summaryOf) ∧
      l.Sorted (fun a b => b.updatedAt ≤ a.updatedAt) := by
  refine ⟨sortSummaries (fs.filterMap summaryOf), ?_, ?_, ?_⟩
  · unfold load_sessions
    rw [collectSummaries_ok fs hok]
  · exact List.perm_insertionSort _ _
  · haveI : IsTotal SessionSummary (fun a b => b.updatedAt ≤ a.updatedAt) :=
      ⟨fun a b => (le_total b.updatedAt a.updatedAt)⟩
    haveI : IsTrans SessionSummary (fun a b => b.updatedAt ≤ a.updatedAt) :=
      ⟨fun _ _ _ hab hbc => le_trans hbc hab⟩
    exact List.sorted_insertionSort _ _

/-- Witness for `load_sessions_spec`: two readable sessions and one
directory with a missing record file. -/
theorem load_sessions_spec_witness :
    ∃ l, load_sessions (some "/s")
      ([⟨"chat_1", true, some (.parsed ⟨"1", "A", "c1", "u1", []⟩)⟩,
        ⟨"chat_2", true, none⟩,
        ⟨"chat_3", true, some (.parsed ⟨"3", "C", "c3", "u3", []⟩)⟩] :
        List DirEntry) = .ok l ∧
      l.Perm (([⟨"chat_1", true, some (.parsed ⟨"1", "A", "c1", "u1", []⟩)⟩,
        ⟨"chat_2", true, none⟩,
        ⟨"chat_3", true, some (.parsed ⟨"3", "C", "c3", "u3", []⟩)⟩] :
        List DirEntry).filterMap summaryOf) ∧
      l.Sorted (fun a b => b.updatedAt ≤ a.updatedAt) :=
  load_sessions_spec "/s" _ (by decide)

/-- A successful priority pick returns a format from the list it was
given. -/
theorem pickPriority_mem (subs : List SubTrack) (fmts : List String)
    (u g : String) (h : pickPriority subs fmts = some (u, g)) : g ∈ fmts := by
  induction fmts with
  | nil => simp [pickPriority] at h
  | cons a rest ih =>
    simp only [pickPriority] at h
    cases hfind : subs.find? (fun s => s.ext == some a) with
    | some t =>
      rw [hfind] at h
      cases h
      exact List.mem_cons_self _ _
    | none =>
      rw [hfind] at h
      exact List.mem_cons_of_mem _ (ih h)

/-- If some track carries a format from the list, the priority pick
succeeds, and with a format no later in the list. -/
theorem pickPriority_best (subs : List SubTrack) (fmts : List String)
    (f : String) (hf : f ∈ fmts) (s : SubTrack) (hs : s ∈ subs)
    (he : s.ext = some f) :
    ∃ u g, pickPriority subs fmts = some (u, g) ∧
      fmts.indexOf g ≤ fmts.indexOf f := by
  induction fmts with
  | nil => simp at hf
  | cons a rest ih =>
    cases hfind : subs.find? (fun s => s.ext == some a) with
    | some t =>
      exact ⟨t.url, a, by simp [pickPriority, hfind], by
        rw [List.indexOf_cons_self]; exact Nat.zero_le _⟩
    | none =>
      have hfa : f ≠ a := by
        intro hcontra
        have := List.find?_eq_none.mp hfind s hs
        simp [he, hcontra] at this
      have hf' : f ∈ rest := by
        cases List.mem_cons.mp hf with
        | inl h => exact absurd h hfa
        | inr h => exact h
      obtain ⟨u, g, hpick, hle⟩ := ih hf'
      refine ⟨u, g, by simp [pickPriority, hfind, hpick], ?_⟩
      rw [List.indexOf_cons_ne _ (fun h => hfa h.symm)]
      by_cases hg : g = a
      · rw [List.indexOf_cons_eq _ hg.symm]
        exact Nat.zero_le _
      · rw [List.indexOf_cons_ne _ (fun h => hg h.symm)]
        exact Nat.succ_le_succ hle

/-- If no track carries any format of the list, the priority pick
fails. -/
theorem pickPriority_none (subs : List SubTrack) (fmts : List String)
    (h : ∀ s ∈ subs, ∀ f, s.ext = some f → f ∉ fmts) :
    pickPriority subs fmts = none := by
  induction fmts with
  | nil => rfl
  | cons a rest ih =>
    have hfind : subs.find? (fun s => s.ext == some a) = none := by
      rw [List.find?_eq_none]
      intro s hs
      simp only [beq_iff_eq]
      intro hext
      exact h s hs a hext (List.mem_cons_self _ _)
    simp only [pickPriority, hfind]
    exact ih (fun s hs f hf hmem => h s hs f hf (List.mem_cons_of_mem _ hmem))

/-- C3 counterexample: with an XML-cue (`srv2`) track and a WebVTT track
both offered, the WebVTT track is selected — contradicting the claimed
priority of all XML-cue variants over WebVTT. -/
theorem vtt_selected_over_xml_cue :
    selectSubtitle [⟨some "srv2", "a"⟩, ⟨some "vtt", "b"⟩] =
      some ("b", some "vtt") := by
  decide

/-- C3 amended theorem: the selected format is a highest-priority one
present, for the source's order `json3 > srv3 > vtt > srv2 > srv1`; when
no track carries a priority format, the first track whose extension is
not `m3u8` is used. -/
theorem selectSubtitle_priority_order :
    (∀ subs : List SubTrack, ∀ s ∈ subs, ∀ f, s.ext = some f →
      f ∈ priorityFormats →
      ∃ u g, selectSubtitle subs = some (u, some g) ∧ g ∈ priorityFormats ∧
        priorityFormats.indexOf g ≤ priorityFormats.indexOf f) ∧
    (∀ subs : List SubTrack, (∀ s ∈ subs, ∀ f, s.ext = some f →
      f ∉ priorityFormats) →
      selectSubtitle subs =
        (subs.find? (fun s => !(s.ext == some "m3u8"))).map
          (fun s => (s.url, s.ext))) := by
  constructor
  · intro subs s hs f he hf
    obtain ⟨u, g, hpick, hle⟩ := pickPriority_best subs priorityFormats f hf s hs he
    exact ⟨u, g, by simp [selectSubtitle, hpick],
      pickPriority_mem subs priorityFormats u g hpick, hle⟩
  · intro subs h
    rw [selectSubtitle, pickPriority_none subs priorityFormats h]
    cases hfind : subs.find? (fun s => !(s.ext == some "m3u8")) <;> simp [hfind]

/-- Witness for `selectSubtitle_priority_order`: `srv3` beats `vtt`. -/
theorem selectSubtitle_priority_order_witness :
    ∃ u g, selectSubtitle [⟨some "vtt", "b"⟩, ⟨some "srv3", "c"⟩] =
        some (u, some g) ∧ g ∈ priorityFormats ∧
        priorityFormats.indexOf g ≤ priorityFormats.indexOf "vtt" :=
  selectSubtitle_priority_order.1 [⟨some "vtt", "b"⟩, ⟨some "srv3", "c"⟩]
    ⟨some "vtt", "b"⟩ (by decide) "vtt" rfl (by decide)

/-- C4 theorem: an `m3u8`-tagged track is never selected (and if every
track is `m3u8` nothing is selected), and when the downloaded body
carries an HLS marker despite its tag the strategy raises — an exception
the orchestrator's handler turns into fall-through to the captions-API
strategy rather than a terminal failure. -/
theorem hls_refusal_is_soft :
    (∀ subs u e, selectSubtitle subs = some (u, e) → e ≠ some "m3u8") ∧
    (∀ subs : List SubTrack, (∀ s ∈ subs, s.ext = some "m3u8") →
      selectSubtitle subs = none) ∧
    (∀ (env : Strat1Env) (vid : String) subs u ext body,
      env.info = .ok (some subs) → selectSubtitle subs = some (u, ext) →
      env.download u = .ok (200, body) → hlsMarker body = true →
      strategy1 env vid =
        .raised (.generic "M3U8 playlist received instead of subtitles") ∧
      (∀ url s2, extract_youtube_video_id url = some vid →
        get_youtube_transcript url true true env s2 = runStrategy2 true s2)) := by
  refine ⟨?_, ?_, ?_⟩
  · intro subs u e hsel
    unfold selectSubtitle at hsel
    cases hpick : pickPriority subs priorityFormats with
    | some p =>
      obtain ⟨pu, pg⟩ := p
      have hmem := pickPriority_mem subs priorityFormats pu pg hpick
      rw [hpick] at hsel
      simp only [Option.some.injEq, Prod.mk.injEq] at hsel
      obtain ⟨-, he⟩ := hsel
      intro hcontra
      rw [← he, Option.some.injEq] at hcontra
      rw [hcontra] at hmem
      simp [priorityFormats] at hmem
    | none =>
      rw [hpick] at hsel
      cases hfind : subs.find? (fun s => !(s.ext == some "m3u8")) with
      | none =>
        rw [hfind] at hsel
        simp at hsel
      | some s =>
        rw [hfind] at hsel
        simp only [Option.some.injEq, Prod.mk.injEq] at hsel
        obtain ⟨-, he⟩ := hsel
        have hp := List.find?_some hfind
        simp only [Bool.not_eq_true', beq_eq_false_iff_ne, ne_eq] at hp
        rw [← he]
        simpa using hp
  · intro subs hall
    have hpick : pickPriority subs priorityFormats = none := by
      refine pickPriority_none subs priorityFormats ?_
      intro s hs f hf
      rw [hall s hs] at hf
      cases hf
      decide
    have hfind : subs.find? (fun s => !(s.ext == some "m3u8")) = none := by
      rw [List.find?_eq_none]
      intro s hs
      simp [hall s hs]
    rw [selectSubtitle, hpick, hfind]
  · intro env vid subs u ext body hinfo hsel hdl hmark
    have hstrat : strategy1 env vid =
        .raised (.generic "M3U8 playlist received instead of subtitles") := by
      simp only [strategy1, hinfo, hsel, hdl]
      simp [hmark]
    refine ⟨hstrat, ?_⟩
    intro url s2 hurl
    simp [get_youtube_transcript, hurl, hstrat]

/-- Witness for `hls_refusal_is_soft`: a track tagged `vtt` whose body is
an HLS playlist. -/
theorem hls_refusal_is_soft_witness :
    strategy1
      ⟨.ok (some [⟨some "vtt", "u"⟩]),
       fun _ => .ok (200, "#EXTM3U rest of playlist"),
       fun _ => .error (.generic "parse")⟩ "abc123" =
      .raised (.generic "M3U8 playlist received instead of subtitles") :=
  ((hls_refusal_is_soft.2.2
    ⟨.ok (some [⟨some "vtt", "u"⟩]),
     fun _ => .ok (200, "#EXTM3U rest of playlist"),
     fun _ => .error (.generic "parse")⟩ "abc123" [⟨some "vtt", "u"⟩] "u"
    (some "vtt") "#EXTM3U rest of playlist" rfl (by decide) rfl (by decide))).1

/-- No two adjacent whitespace characters. -/
def noTwoAdjWs : List Char → Bool
  | [] => true
  | [_] => true
  | c :: d :: rest => !(isPySpace c && isPySpace d) && noTwoAdjWs (d :: rest)

/-- A plain-prose string: whitespace only as single interior ASCII
spaces, and not carrying an HLS marker. -/
def plainProse (s : String) : Bool :=
  s.data.all (fun c => !isPySpace c || c == ' ') &&
  noTwoAdjWs s.data &&
  (match s.data.head? with | none => true | some c => !isPySpace c) &&
  (match s.data.getLast? with | none => true | some c => !isPySpace c) &&
  !hlsMarker s

/-- Whitespace collapse never lengthens the text. -/
theorem collapseWs_length_le (l : List Char) :
    (collapseWs l).length ≤ l.length := by
  induction l with
  | nil => simp [collapseWs]
  | cons c rest ih =>
    cases rest with
    | nil => by_cases h : isPySpace c = true <;> simp [collapseWs, h]
    | cons d rs =>
      by_cases h1 : isPySpace c = true
      · by_cases h2 : isPySpace d = true
        · simp only [collapseWs, h1, h2, if_true]
          simpa using Nat.le_succ_of_le ih
        · simp only [collapseWs, h1, h2, if_true, if_false, Bool.false_eq_true]
          simpa using ih
      · simp only [collapseWs, h1, Bool.false_eq_true, if_false]
        simpa using ih

/-- Stripping never lengthens the text. -/
theorem pyStripOn_length_le (p : Char → Bool) (l : List Char) :
    (pyStripOn p l).length ≤ l.length := by
  unfold pyStripOn
  have h1 : (l.dropWhile p).length ≤ l.length :=
    (List.dropWhile_suffix p).sublist.length_le
  have h2 : ((l.dropWhile p).reverse.dropWhile p).length ≤
      (l.dropWhile p).reverse.length :=
    (List.dropWhile_suffix p).sublist.length_le
  simp only [List.length_reverse] at *
  omega

/-- The shared normalization never lengthens the text. -/
theorem pyCollapse_length_le (s : String) :
    (pyCollapse s).length ≤ s.length := by
  have h1 := pyStripOn_length_le isPySpace (collapseWs s.data)
  have h2 := collapseWs_length_le s.data
  show (pyStripWs (collapseWs s.data)).length ≤ s.data.length
  unfold pyStripWs
  omega

/-- Collapsing an all-whitespace nonempty text gives a single space. -/
theorem collapseWs_all_space (l : List Char) (hne : l ≠ [])
    (h : ∀ c ∈ l, isPySpace c = true) : collapseWs l = [' '] := by
  induction l with
  | nil => exact absurd rfl hne
  | cons c rest ih =>
    have hc : isPySpace c = true := h c (List.mem_cons_self _ _)
    cases rest with
    | nil => simp [collapseWs, hc]
    | cons d rs =>
      have hd : isPySpace d = true := h d (by simp)
      simp only [collapseWs, hc, hd, if_true]
      exact ih (by simp) (fun x hx => h x (List.mem_cons_of_mem _ hx))

/-- A list whose head fails `p` is untouched by `dropWhile`. -/
theorem dropWhile_head_not (p : Char → Bool) (l : List Char)
    (h : ∀ c, l.head? = some c → p c = false) : l.dropWhile p = l := by
  cases l with
  | nil => rfl
  | cons c rest =>
    have := h c rfl
    simp [List.dropWhile_cons, this]

/-- A list whose head and last characters both fail `p` is untouched by
stripping. -/
theorem pyStripOn_eq_self (p : Char → Bool) (l : List Char)
    (hh : ∀ c, l.head? = some c → p c = false)
    (hl : ∀ c, l.getLast? = some c → p c = false) : pyStripOn p l = l := by
  unfold pyStripOn
  rw [dropWhile_head_not p l hh]
  rw [dropWhile_head_not p l.reverse]
  · exact List.reverse_reverse l
  · intro c hc
    rw [List.head?_reverse] at hc
    exact hl c hc

/-- Text that is already plain prose is unchanged by whitespace
collapse. -/
theorem collapseWs_eq_self (l : List Char)
    (hws : ∀ c ∈ l, isPySpace c = true → c = ' ')
    (hadj : noTwoAdjWs l = true) : collapseWs l = l := by
  induction l with
  | nil => rfl
  | cons c rest ih =>
    cases rest with
    | nil =>
      by_cases h : isPySpace c = true
      · simp [collapseWs, h, hws c (by simp) h]
      · simp [collapseWs, h]
    | cons d rs =>
      have hadj' : noTwoAdjWs (d :: rs) = true := by
        simp only [noTwoAdjWs, Bool.and_eq_true] at hadj
        exact hadj.2
      have ih' := ih (fun x hx => hws x (List.mem_cons_of_mem _ hx)) hadj'
      by_cases h1 : isPySpace c = true
      · have hd : isPySpace d = false := by
          simp only [noTwoAdjWs, Bool.and_eq_true, Bool.not_eq_true',
            Bool.and_eq_false_iff] at hadj
          rcases hadj.1 with h | h
          · rw [h1] at h; cases h
          · exact h
        simp only [collapseWs, h1, hd, if_true, Bool.false_eq_true, if_false]
        rw [ih', hws c (by simp) h1]
      · simp only [collapseWs, h1, Bool.false_eq_true, if_false]
        rw [ih']

/-- C1 counterexample: fifty plain characters — plain prose at exactly
the 50-character threshold — are rejected by the gate, because the code
requires strictly more than 50 characters. -/
theorem gate_rejects_exactly_fifty :
    plainProse (String.mk (List.replicate 50 'a')) = true ∧
    (String.mk (List.replicate 50 'a')).length = 50 ∧
    contentGate (String.mk (List.replicate 50 'a')) = false := by
  refine ⟨by decide, by decide, by decide⟩

/-- C1 amended theorem: the gate rejects the empty string, whitespace-only
strings, strings shorter than 50 characters and strings beginning with
the HLS marker, and accepts every plain-prose string of length at least
51 (strictly above the threshold). -/
theorem contentGate_spec :
    contentGate "" = false ∧
    (∀ s : String, s.data ≠ [] → (∀ c ∈ s.data, isPySpace c = true) →
      contentGate s = false) ∧
    (∀ s : String, s.length < 50 → contentGate s = false) ∧
    (∀ s : String, ("#EXTM3U".data).isPrefixOf s.data = true →
      contentGate s = false) ∧
    (∀ s : String, plainProse s = true → 51 ≤ s.length →
      contentGate s = true) := by
  refine ⟨by decide, ?_, ?_, ?_, ?_⟩
  · intro s hne hws
    have hcoll : pyCollapse s = "" := by
      show String.mk (pyStripWs (collapseWs s.data)) = ""
      rw [collapseWs_all_space s.data hne hws]
      decide
    simp [contentGate, qualityCheck, hcoll]
  · intro s hlen
    have h1 : (pyCollapse s).length ≤ s.length := pyCollapse_length_le s
    have h2 : ¬((pyCollapse s).length > 50) := by omega
    simp [contentGate, qualityCheck, h2]
  · intro s hpre
    have : hlsMarker s = true := by simp [hlsMarker, hpre]
    simp [contentGate, this]
  · intro s hplain hlen
    simp only [plainProse, Bool.and_eq_true, List.all_eq_true] at hplain
    obtain ⟨⟨⟨⟨hws, hadj⟩, hhead⟩, hlast⟩, hhls⟩ := hplain
    have hws' : ∀ c ∈ s.data, isPySpace c = true → c = ' ' := by
      intro c hc hsp
      have := hws c hc
      simp [hsp] at this
      exact this
    have hh1 : ∀ c, s.data.head? = some c → isPySpace c = false := by
      intro c hc
      rw [hc] at hhead
      simpa using hhead
    have hl1 : ∀ c, s.data.getLast? = some c → isPySpace c = false := by
      intro c hc
      rw [hc] at hlast
      simpa using hlast
    have hcoll : pyCollapse s = s := by
      show String.mk (pyStripWs (collapseWs s.data)) = s
      rw [collapseWs_eq_self s.data hws' hadj]
      unfold pyStripWs
      rw [pyStripOn_eq_self isPySpace s.data hh1 hl1]
    have hne : ¬(s == "") = true := by
      intro hcontra
      rw [beq_iff_eq] at hcontra
      subst hcontra
      simp [String.length] at hlen
    have hgt : s.length > 50 := by omega
    simp only [contentGate, hcoll, qualityCheck]
    simp only [Bool.not_eq_true'] at hhls
    simp [hhls, hne, hgt]

/-- Witness for `contentGate_spec`: 51 plain characters pass the gate,
49 are rejected. -/
theorem contentGate_spec_witness :
    contentGate (String.mk (List.replicate 51 'a')) = true ∧
    contentGate (String.mk (List.replicate 49 'a')) = false :=
  ⟨contentGate_spec.2.2.2.2 _ (by decide) (by decide),
   contentGate_spec.2.2.1 _ (by decide)⟩

/-- Fully normalized text: whitespace only as single interior ASCII
spaces. -/
def collapsedOk (l : List Char) : Bool :=
  l.all (fun c => !isPySpace c || c == ' ') && noTwoAdjWs l

/-- The no-adjacent-whitespace predicate as a chain. -/
theorem noTwoAdjWs_iff_chain (l : List Char) :
    noTwoAdjWs l = true ↔
      l.Chain' (fun a b => ¬(isPySpace a = true ∧ isPySpace b = true)) := by
  induction l with
  | nil => simp [noTwoAdjWs]
  | cons c rest ih =>
    cases rest with
    | nil => simp [noTwoAdjWs]
    | cons d rs =>
      rw [List.chain'_cons, ← ih]
      simp only [noTwoAdjWs, Bool.and_eq_true, Bool.not_eq_true',
        Bool.and_eq_false_iff]
      constructor
      · rintro ⟨h1, h2⟩
        refine ⟨?_, h2⟩
        rintro ⟨ha, hb⟩
        rcases h1 with h | h
        · rw [ha] at h; cases h
        · rw [hb] at h; cases h
      · rintro ⟨h1, h2⟩
        refine ⟨?_, h2⟩
        by_cases ha : isPySpace c = true
        · by_cases hb : isPySpace d = true
          · exact absurd ⟨ha, hb⟩ h1
          · exact Or.inr (by simpa using hb)
        · exact Or.inl (by simpa using ha)

/-- The predicate is preserved by reversal. -/
theorem noTwoAdjWs_reverse (l : List Char) :
    noTwoAdjWs l.reverse = noTwoAdjWs l := by
  rcases h : noTwoAdjWs l with hf | ht
  · rcases h2 : noTwoAdjWs l.reverse with h2f | h2t
    · rfl
    · exfalso
      have hc := (noTwoAdjWs_iff_chain l.reverse).mp h2
      rw [List.chain'_reverse] at hc
      have : noTwoAdjWs l = true := by
        rw [noTwoAdjWs_iff_chain]
        exact hc.imp (fun a b h hab => h ⟨hab.2, hab.1⟩)
      rw [h] at this
      cases this
  · have hc := (noTwoAdjWs_iff_chain l).mp h
    rw [noTwoAdjWs_iff_chain, List.chain'_reverse]
    exact hc.imp (fun a b h hab => h ⟨hab.2, hab.1⟩)

/-- The predicate passes to tails. -/
theorem noTwoAdjWs_tail (x : Char) (xs : List Char)
    (h : noTwoAdjWs (x :: xs) = true) : noTwoAdjWs xs = true := by
  cases xs with
  | nil => rfl
  | cons y ys =>
    simp only [noTwoAdjWs, Bool.and_eq_true] at h
    exact h.2

/-- The predicate passes to suffixes. -/
theorem noTwoAdjWs_suffix (s l : List Char) (hs : s <:+ l)
    (h : noTwoAdjWs l = true) : noTwoAdjWs s = true := by
  obtain ⟨t, rfl⟩ := hs
  induction t with
  | nil => exact h
  | cons a t' ih => exact ih (noTwoAdjWs_tail a (t' ++ s) h)

/-- Every whitespace character surviving the collapse is a space. -/
theorem collapseWs_ws_is_space (l : List Char) :
    ∀ c ∈ collapseWs l, isPySpace c = true → c = ' ' := by
  induction l with
  | nil => simp [collapseWs]
  | cons c rest ih =>
    cases rest with
    | nil =>
      by_cases h : isPySpace c = true
      · simp [collapseWs, h]
      · simp only [collapseWs, h, Bool.false_eq_true, if_false]
        intro x hx hsp
        rw [List.mem_singleton] at hx
        rw [hx] at hsp
        exact absurd hsp h
    | cons d rs =>
      by_cases h1 : isPySpace c = true
      · by_cases h2 : isPySpace d = true
        · simpa [collapseWs, h1, h2] using ih
        · simp only [collapseWs, h1, h2, if_true, Bool.false_eq_true, if_false]
          intro x hx hsp
          rcases List.mem_cons.mp hx with h | h
          · exact h
          · exact ih x h hsp
      · simp only [collapseWs, h1, Bool.false_eq_true, if_false]
        intro x hx hsp
        rcases List.mem_cons.mp hx with h | h
        · rw [h] at hsp; exact absurd hsp h1
        · exact ih x h hsp

/-- The head of a collapsed nonempty list: a space when the source head
was whitespace, the source head otherwise. -/
theorem collapseWs_head? (d : Char) (rest : List Char) :
    (collapseWs (d :: rest)).head? =
      some (if isPySpace d then ' ' else d) := by
  induction rest generalizing d with
  | nil => by_cases h : isPySpace d = true <;> simp [collapseWs, h]
  | cons e rs ih =>
    by_cases h1 : isPySpace d = true
    · by_cases h2 : isPySpace e = true
      · rw [show collapseWs (d :: e :: rs) = collapseWs (e :: rs) by
          simp [collapseWs, h1, h2]]
        rw [ih e]
        simp [h1, h2]
      · simp [collapseWs, h1, h2]
    · simp [collapseWs, h1]

/-- Collapsing leaves no two adjacent whitespace characters. -/
theorem noTwoAdjWs_collapseWs (l : List Char) :
    noTwoAdjWs (collapseWs l) = true := by
  induction l with
  | nil => rfl
  | cons c rest ih =>
    cases rest with
    | nil => by_cases h : isPySpace c = true <;> simp [collapseWs, h, noTwoAdjWs]
    | cons d rs =>
      have hhead := collapseWs_head? d rs
      obtain ⟨t, ht⟩ : ∃ t, collapseWs (d :: rs) =
          (if isPySpace d then ' ' else d) :: t := by
        cases hcw : collapseWs (d :: rs) with
        | nil => rw [hcw] at hhead; cases hhead
        | cons x xs =>
          rw [hcw] at hhead
          simp only [List.head?_cons, Option.some.injEq] at hhead
          exact ⟨xs, by rw [hhead]⟩
      by_cases h1 : isPySpace c = true
      · by_cases h2 : isPySpace d = true
        · simpa [collapseWs, h1, h2] using ih
        · simp only [collapseWs, h1, h2, if_true, Bool.false_eq_true, if_false]
          rw [ht] at ih ⊢
          simp only [h2, Bool.false_eq_true, if_false] at ih ⊢
          simp only [noTwoAdjWs, Bool.and_eq_true]
          refine ⟨?_, ih⟩
          simp [h2]
      · simp only [collapseWs, h1, Bool.false_eq_true, if_false]
        rw [ht] at ih ⊢
        simp only [noTwoAdjWs, Bool.and_eq_true]
        refine ⟨?_, ih⟩
        simp [h1]

/-- Characters of the stripped list come from the original list. -/
theorem pyStripOn_subset (p : Char → Bool) (l : List Char) :
    ∀ c ∈ pyStripOn p l, c ∈ l := by
  intro c hc
  unfold pyStripOn at hc
  rw [List.mem_reverse] at hc
  have h1 := ((List.dropWhile_suffix p).sublist).mem hc
  rw [List.mem_reverse] at h1
  exact ((List.dropWhile_suffix p).sublist).mem h1

/-- The final normalization always produces fully normalized text. -/
theorem collapsedOk_pyCollapse (s : String) :
    collapsedOk (pyCollapse s).data = true := by
  have hdata : (pyCollapse s).data = pyStripWs (collapseWs s.data) := rfl
  rw [hdata]
  unfold collapsedOk
  rw [Bool.and_eq_true]
  constructor
  · rw [List.all_eq_true]
    intro c hc
    have hmem : c ∈ collapseWs s.data := pyStripOn_subset isPySpace _ c hc
    by_cases hsp : isPySpace c = true
    · have := collapseWs_ws_is_space s.data c hmem hsp
      simp [this]
    · simp [hsp]
  · unfold pyStripWs pyStripOn
    rw [noTwoAdjWs_reverse]
    refine noTwoAdjWs_suffix _ _ (List.dropWhile_suffix isPySpace) ?_
    rw [noTwoAdjWs_reverse]
    refine noTwoAdjWs_suffix _ _ (List.dropWhile_suffix isPySpace) ?_
    exact noTwoAdjWs_collapseWs s.data

/-- C5 counterexample: the pass-through decode path (unknown extension,
no `WEBVTT` marker) returns the raw content, markup tags and HTML
entities included — the claim that all four decode paths yield text free
of tags and entity artifacts is false. -/
theorem passthrough_keeps_markup :
    decodeAndClean (fun _ => .error (.generic "parse")) (some "txt")
      "an &amp; entity and a <b>tag</b> survive" =
      .ok "an &amp; entity and a <b>tag</b> survive" ∧
    containsSub ("<b>".data) ("an &amp; entity and a <b>tag</b> survive".data) = true ∧
    containsSub ("&amp;".data) ("an &amp; entity and a <b>tag</b> survive".data) = true := by
  refine ⟨by decide, by decide, by decide⟩

/-- C5 amended theorem: every decode path ends in the shared whitespace
normalization, so successful output never contains a run of consecutive
whitespace (and all its whitespace is plain spaces); the WebVTT fixture
`WEBVTT` / cue index / timing line / `Hello <b>world</b>` decodes to
exactly `Hello world`.  Tag stripping and entity decoding, however,
happen only on the XML-cue path (entities) and XML-cue/WebVTT paths
(tags): json-event and pass-through output can retain markup. -/
theorem decode_output_normalized :
    (∀ (jp : String → Except PyExc (List JEvent)) (ext : Option String)
        (content t : String),
      decodeAndClean jp ext content = .ok t → collapsedOk t.data = true) ∧
    decodeAndClean (fun _ => .error (.generic "parse")) (some "vtt")
      "WEBVTT\n\n1\n00:00:01.000 --> 00:00:03.000\nHello <b>world</b>\n" =
      .ok "Hello world" := by
  constructor
  · intro jp ext content t h
    unfold decodeAndClean at h
    cases hd : decodeDispatch jp ext content with
    | ok t' =>
      rw [hd] at h
      simp only [Except.ok.injEq] at h
      rw [← h]
      exact collapsedOk_pyCollapse t'
    | error e =>
      rw [hd] at h
      cases h
  · decide

/-- Witness for `decode_output_normalized`: the fixture's output is
fully normalized. -/
theorem decode_output_normalized_witness :
    collapsedOk ("Hello world").data = true :=
  decode_output_normalized.1 (fun _ => .error (.generic "parse")) (some "vtt")
    "WEBVTT\n\n1\n00:00:01.000 --> 00:00:03.000\nHello <b>world</b>\n"
    "Hello world" (by decide)

/-- `splitOnChar` never returns the empty list of pieces. -/
theorem splitOnChar_ne_nil (sep : Char) (l : List Char) :
    splitOnChar sep l ≠ [] := by
  cases l with
  | nil => simp [splitOnChar]
  | cons c rest =>
    simp only [splitOnChar]
    by_cases h : c = sep
    · simp [h]
    · simp only [h, if_false]
      cases splitOnChar sep rest with
      | nil => exact List.cons_ne_nil _ _
      | cons hd tl => exact List.cons_ne_nil _ _

/-- A list free of the separator is one single piece. -/
theorem splitOnChar_single (sep : Char) (l : List Char) (h : sep ∉ l) :
    splitOnChar sep l = [l] := by
  induction l with
  | nil => rfl
  | cons c rest ih =>
    have hc : ¬(c = sep) := fun hcc => h (by simp [hcc])
    have hr := ih (fun hmem => h (List.mem_cons_of_mem _ hmem))
    simp [splitOnChar, hc, hr]

/-- `dropWhile` over an all-satisfying block continues behind it. -/
theorem dropWhile_all_append (p : Char → Bool) (a r : List Char)
    (h : ∀ c ∈ a, p c = true) : (a ++ r).dropWhile p = r.dropWhile p := by
  induction a with
  | nil => rfl
  | cons c rest ih =>
    rw [List.cons_append, List.dropWhile_cons,
      if_pos (h c (List.mem_cons_self _ _))]
    exact ih (fun x hx => h x (List.mem_cons_of_mem _ hx))

/-- `takeWhile` over an all-satisfying block continues behind it. -/
theorem takeWhile_all_append (p : Char → Bool) (a r : List Char)
    (h : ∀ c ∈ a, p c = true) : (a ++ r).takeWhile p = a ++ r.takeWhile p := by
  induction a with
  | nil => rfl
  | cons c rest ih =>
    rw [List.cons_append, List.takeWhile_cons,
      if_pos (h c (List.mem_cons_self _ _)), List.cons_append]
    rw [ih (fun x hx => h x (List.mem_cons_of_mem _ hx))]

/-- Parsing the canonical query `v=<value>` yields no key other than
`v`, whatever the (possibly empty) value is, provided it carries no
`'&'`. -/
theorem parseQsGetFirst_single_v (tv : List Char)
    (hamp : '&' ∉ 'v' :: '=' :: tv) (k : List Char) (hk : k ≠ ['v']) :
    parseQsGetFirst ('v' :: '=' :: tv) k = none := by
  unfold parseQsGetFirst parseQsPairs
  rw [splitOnChar_single '&' _ hamp]
  have hsfe : splitFirstEq ('v' :: '=' :: tv) = some (['v'], tv) := by
    unfold splitFirstEq
    simp
  rw [List.filterMap_cons]
  simp only [hsfe]
  cases tv with
  | nil => simp
  | cons a t =>
    simp only [List.isEmpty_cons, Bool.false_eq_true, if_false,
      List.filterMap_nil]
    rw [List.find?_cons_of_neg]
    · rfl
    · intro hcontra
      have h2 : pyUnquote (List.map plusToSpace ['v']) = k :=
        of_decide_eq_true hcontra
      apply hk
      rw [← h2]
      decide

/-- C6 counterexample: `parse_qs` percent-decodes the `v` value, so a
`%26` in it becomes a literal `'&'`: for
`https://www.youtube.com/watch?v=abc%26list%3Dxyz` the canonical URL is
`https://www.youtube.com/watch?v=abc&list=xyz`, whose query does carry
the parameter `list=xyz` — the claim that all parameters other than `v`
are absent from the canonical URL is false. -/
theorem percent_encoded_ampersand_leaks_param :
    clean_youtube_url "https://www.youtube.com/watch?v=abc%26list%3Dxyz" =
      "https://www.youtube.com/watch?v=abc&list=xyz" ∧
    parseQsGetFirst
      (urlQuery (clean_youtube_url
        "https://www.youtube.com/watch?v=abc%26list%3Dxyz").data)
      ("list".data) = some ("xyz".data) ∧
    extract_youtube_video_id
      "https://www.youtube.com/watch?v=abc%26list%3Dxyz" =
      some "abc&list=xyz" := by
  refine ⟨by decide, by decide, by decide⟩

/-- C6 amended theorem: the concrete scenario
`https://www.youtube.com/watch?v=abc123&list=xyz` yields identifier
`abc123` and canonical URL `https://www.youtube.com/watch?v=abc123`;
in general, for a long-form youtube.com URL (not a youtu.be one) whose
query carries a `v` parameter whose decoded value contains no `'&'`,
the canonical URL is rebuilt from the `v` value alone and parsing the
canonical URL's query yields no parameter other than `v`.  (A
percent-encoded `%26` in the value decodes to `'&'` and defeats this,
as the counterexample shows.) -/
theorem clean_url_canonical :
    clean_youtube_url "https://www.youtube.com/watch?v=abc123&list=xyz" =
      "https://www.youtube.com/watch?v=abc123" ∧
    extract_youtube_video_id "https://www.youtube.com/watch?v=abc123&list=xyz" =
      some "abc123" ∧
    (∀ (url : String) (vid : List Char),
      containsSub ("youtu.be".data) url.data = false →
      containsSub ("youtube.com".data) url.data = true →
      parseQsGetFirst (urlQuery url.data) ("v".data) = some vid →
      '&' ∉ vid →
      clean_youtube_url url =
        "https://www.youtube.com/watch?v=" ++ String.mk vid ∧
      (∀ k : List Char, k ≠ ['v'] →
        parseQsGetFirst (urlQuery (clean_youtube_url url).data) k = none)) := by
  refine ⟨by decide, by decide, ?_⟩
  intro url vid hbe hcom hv hamp
  have hclean : clean_youtube_url url =
      "https://www.youtube.com/watch?v=" ++ String.mk vid := by
    unfold clean_youtube_url
    simp [hbe, hcom, hv]
  refine ⟨hclean, ?_⟩
  intro k hk
  have hdata : (clean_youtube_url url).data =
      ("https://www.youtube.com/watch".data) ++ '?' :: ('v' :: '=' :: vid) := by
    rw [hclean]
    rfl
  have hA1 : ∀ x ∈ ("https://www.youtube.com/watch".data), x ≠ '?' := by decide
  have hA2 : ∀ x ∈ ("https://www.youtube.com/watch".data), x ≠ '#' := by decide
  have hq : urlQuery (clean_youtube_url url).data =
      'v' :: '=' :: vid.takeWhile (fun c => c ≠ '#') := by
    rw [hdata]
    simp only [urlQuery]
    rw [takeWhile_all_append _ _ _ (fun c hc => by simpa using hA2 c hc)]
    rw [show ('?' :: 'v' :: '=' :: vid).takeWhile (fun c => decide (c ≠ '#')) =
      '?' :: 'v' :: '=' :: vid.takeWhile (fun c => decide (c ≠ '#')) from by
        simp [List.takeWhile_cons]]
    rw [dropWhile_all_append _ _ _ (fun c hc => by simpa using hA1 c hc)]
    rw [List.dropWhile_cons]
    simp
  rw [hq]
  have htv : '&' ∉ 'v' :: '=' :: vid.takeWhile (fun c => c ≠ '#') := by
    intro hmem
    rcases List.mem_cons.mp hmem with h | h
    · cases h
    · rcases List.mem_cons.mp h with h1 | h1
      · cases h1
      · exact hamp (List.takeWhile_subset _ h1)
  exact parseQsGetFirst_single_v _ htv k hk

/-- Witness for `clean_url_canonical`: the `list` parameter is absent
from the canonical URL built for the scenario input (whose `v` value
`abc123` carries no ampersand). -/
theorem clean_url_canonical_witness :
    parseQsGetFirst
      (urlQuery (clean_youtube_url
        "https://www.youtube.com/watch?v=abc123&list=xyz").data)
      ("list".data) = none :=
  (clean_url_canonical.2.2 "https://www.youtube.com/watch?v=abc123&list=xyz"
    ("abc123".data) (by decide) (by decide) (by decide) (by decide)).2
    ("list".data) (by decide)

/-- The reserved-character substitution leaves no reserved character. -/
theorem replaceReserved_clean (l : List Char) :
    ∀ c ∈ replaceReserved l, isReservedChar c = false := by
  intro c hc
  unfold replaceReserved at hc
  rw [List.mem_map] at hc
  obtain ⟨c0, _, hmap⟩ := hc
  by_cases h : isReservedChar c0 = true
  · rw [← hmap, if_pos h]
    decide
  · rw [← hmap, if_neg h]
    simpa using h

/-- A reserved-free list is untouched by the substitution. -/
theorem replaceReserved_noop (l : List Char)
    (h : ∀ c ∈ l, isReservedChar c = false) : replaceReserved l = l := by
  induction l with
  | nil => rfl
  | cons c rest ih =>
    unfold replaceReserved
    rw [List.map_cons]
    rw [if_neg (by simp [h c (List.mem_cons_self _ _)])]
    rw [show List.map (fun c => if isReservedChar c then '_' else c) rest =
      replaceReserved rest from rfl]
    rw [ih (fun x hx => h x (List.mem_cons_of_mem _ hx))]

/-- The head of a `dropWhile` fails the predicate. -/
theorem head?_dropWhile (p : Char → Bool) (l : List Char) :
    ∀ c, (l.dropWhile p).head? = some c → p c = false := by
  induction l with
  | nil => intro c h; cases h
  | cons a rest ih =>
    intro c h
    rw [List.dropWhile_cons] at h
    by_cases ha : p a = true
    · rw [if_pos ha] at h
      exact ih c h
    · rw [if_neg ha] at h
      rw [List.head?_cons, Option.some.injEq] at h
      rw [← h]
      simpa using ha

/-- The head of a stripped list fails the predicate. -/
theorem pyStripOn_head_not (p : Char → Bool) (l : List Char) :
    ∀ c, (pyStripOn p l).head? = some c → p c = false := by
  intro c h
  unfold pyStripOn at h
  rw [List.head?_reverse] at h
  cases hdw : ((l.dropWhile p).reverse.dropWhile p) with
  | nil => rw [hdw] at h; cases h
  | cons x t =>
    rw [hdw] at h
    have hsuf : x :: t <:+ (l.dropWhile p).reverse := by
      rw [← hdw]
      exact List.dropWhile_suffix p
    obtain ⟨pre, hpre⟩ := hsuf
    have h2 : ((l.dropWhile p).reverse).getLast? = some c := by
      rw [← hpre, List.getLast?_append_of_ne_nil pre (by simp)]
      exact h
    rw [List.getLast?_reverse] at h2
    exact head?_dropWhile p l c h2

/-- The last character of a stripped list fails the predicate. -/
theorem pyStripOn_last_not (p : Char → Bool) (l : List Char) :
    ∀ c, (pyStripOn p l).getLast? = some c → p c = false := by
  intro c h
  unfold pyStripOn at h
  rw [List.getLast?_reverse] at h
  exact head?_dropWhile p _ c h

/-- A scheme-prefixed string contains a colon. -/
theorem colon_of_urlSchemeStart (l : List Char)
    (h : urlSchemeStart l = true) : ':' ∈ l := by
  unfold urlSchemeStart at h
  rw [Bool.or_eq_true, Bool.or_eq_true] at h
  rcases h with (h | h) | h <;>
  · obtain ⟨t, ht⟩ := List.isPrefixOf_iff_prefix.mp h
    rw [← ht]
    refine List.mem_append.mpr (Or.inl ?_)
    decide

/-- Characters of the split-extension pieces come from the name. -/
theorem splitext_subset (p : List Char) :
    (∀ c ∈ (splitext p).1, c ∈ p) ∧ (∀ c ∈ (splitext p).2, c ∈ p) := by
  unfold splitext
  by_cases h1 : (p.reverse.takeWhile (fun c => c ≠ '.')).length = p.length
  · simp only [h1, if_pos rfl]
    exact ⟨fun c hc => hc, fun c hc => by cases hc⟩
  · rw [if_neg h1]
    by_cases h2 : ((p.take ((p.length - (p.reverse.takeWhile
      (fun c => c ≠ '.')).length - 1))).all (fun c => c = '.')) = true
    · rw [if_pos h2]
      exact ⟨fun c hc => hc, fun c hc => by cases hc⟩
    · rw [if_neg h2]
      exact ⟨fun c hc => List.take_subset _ _ hc,
        fun c hc => List.drop_subset _ _ hc⟩

/-- Characters of the truncated name come from the name. -/
theorem truncate255_subset (l : List Char) :
    ∀ c ∈ truncate255 l, c ∈ l := by
  intro c hc
  unfold truncate255 at hc
  by_cases h : decide (l.length > 255) = true
  · rw [if_pos h] at hc
    obtain ⟨hsub1, hsub2⟩ := splitext_subset l
    by_cases he : (splitext l).2.isEmpty = true
    · simp only [he, if_pos rfl] at hc
      exact List.take_subset _ _ hc
    · simp only [he, Bool.false_eq_true, if_false] at hc
      rcases List.mem_append.mp hc with h1 | h1
      · refine hsub1 c ?_
        unfold pySliceTo at h1
        by_cases hk : (0 : Int) ≤ 255 - ((splitext l).2.length : Int)
        · rw [if_pos hk] at h1
          exact List.take_subset _ _ h1
        · rw [if_neg hk] at h1
          exact List.take_subset _ _ h1
      · exact hsub2 c h1
  · rw [if_neg h] at hc
    exact hc

/-- The length of the truncation input bounds nothing here, but when no
truncation fires the list is returned unchanged. -/
theorem truncate255_short (l : List Char) (h : l.length ≤ 255) :
    truncate255 l = l := by
  unfold truncate255
  rw [if_neg]
  simp
  omega

/-- C8 counterexample: for the input `a.` followed by 300 `b`s (an
extension longer than 255 characters), the sanitized output has 301
characters — beyond the claimed 255 bound — and sanitizing it again
changes it, so idempotence fails too. -/
theorem sanitize_truncation_breaks_claim :
    255 < (sanitize_filename (String.mk ('a' :: '.' :: List.replicate 300 'b'))).length ∧
    sanitize_filename (sanitize_filename (String.mk ('a' :: '.' :: List.replicate 300 'b'))) ≠
      sanitize_filename (String.mk ('a' :: '.' :: List.replicate 300 'b')) := by
  refine ⟨by decide, by decide⟩

/-- Unfolding of `sanitize_filename` (its let-chain written out). -/
theorem sanitize_filename_data (z : String) :
    (sanitize_filename z).data = truncate255 (
      if (stripDotSpace (replaceReserved
          (if urlSchemeStart z.data then urlDerivedName z.data else z.data))).isEmpty
      then ("unnamed_file".data)
      else stripDotSpace (replaceReserved
          (if urlSchemeStart z.data then urlDerivedName z.data else z.data))) := rfl

/-- C8 amended theorem: for every input, the sanitized name contains no
reserved punctuation character and no control character in the 0-31
range; for non-URL inputs of length at most 255 (those needing no
truncation) the output also stays within 255 characters and sanitizing
is idempotent.  Inputs that trigger truncation can violate both the
bound and idempotence. -/
theorem sanitize_props (x : String) :
    (∀ c ∈ (sanitize_filename x).data, isReservedChar c = false) ∧
    (urlSchemeStart x.data = false → x.length ≤ 255 →
      (sanitize_filename x).length ≤ 255 ∧
      sanitize_filename (sanitize_filename x) = sanitize_filename x) := by
  have hchars : ∀ (z : String), ∀ c ∈ (sanitize_filename z).data,
      isReservedChar c = false := by
    intro z c hc
    have hdata := sanitize_filename_data z
    rw [hdata] at hc
    have hmem := truncate255_subset _ c hc
    by_cases hemp : (stripDotSpace (replaceReserved
        (if urlSchemeStart z.data then urlDerivedName z.data else z.data))).isEmpty = true
    · rw [if_pos hemp] at hmem
      have hu : ∀ a ∈ ("unnamed_file".data), isReservedChar a = false := by decide
      exact hu c hmem
    · rw [if_neg hemp] at hmem
      have h2 := pyStripOn_subset _ _ c hmem
      exact replaceReserved_clean _ c h2
  refine ⟨hchars x, ?_⟩
  intro hurl hlen
  set f3 := stripDotSpace (replaceReserved x.data) with hf3
  have hlen3 : f3.length ≤ 255 := by
    have h1 := pyStripOn_length_le (fun c => c = '.' || c = ' ') (replaceReserved x.data)
    have h2 : (replaceReserved x.data).length = x.data.length := List.length_map _ _
    have h3 : x.data.length = x.length := rfl
    rw [hf3]
    unfold stripDotSpace
    omega
  have hblen : (if f3.isEmpty then ("unnamed_file".data) else f3).length ≤ 255 := by
    by_cases hemp : f3.isEmpty = true
    · rw [if_pos hemp]; decide
    · rw [if_neg hemp]; exact hlen3
  have hf4 : (sanitize_filename x).data =
      (if f3.isEmpty then ("unnamed_file".data) else f3) := by
    have hsel : (if urlSchemeStart x.data then urlDerivedName x.data else x.data) =
        x.data := by
      rw [hurl]
      simp
    have hdata := sanitize_filename_data x
    rw [hdata, hsel, ← hf3]
    exact truncate255_short _ hblen
  have hylen : (sanitize_filename x).length ≤ 255 := by
    show (sanitize_filename x).data.length ≤ 255
    rw [hf4]
    by_cases hemp : f3.isEmpty = true
    · rw [if_pos hemp]; decide
    · rw [if_neg hemp]; exact hlen3
  refine ⟨hylen, ?_⟩
  set y := sanitize_filename x with hy
  have hyclean : ∀ c ∈ y.data, isReservedChar c = false := hchars x
  have hyurl : urlSchemeStart y.data = false := by
    by_cases h : urlSchemeStart y.data = true
    · have := colon_of_urlSchemeStart y.data h
      have := hyclean ':' this
      simp [isReservedChar] at this
    · simpa using h
  have hhead : ∀ c, y.data.head? = some c → (c = '.' || c = ' ') = false := by
    intro c hc
    rw [hy, hf4] at hc
    by_cases hemp : f3.isEmpty = true
    · rw [if_pos hemp] at hc
      rw [show ("unnamed_file".data).head? = some 'u' from by decide,
        Option.some.injEq] at hc
      rw [← hc]
      decide
    · rw [if_neg hemp] at hc
      exact pyStripOn_head_not _ _ c hc
  have hlast : ∀ c, y.data.getLast? = some c → (c = '.' || c = ' ') = false := by
    intro c hc
    rw [hy, hf4] at hc
    by_cases hemp : f3.isEmpty = true
    · rw [if_pos hemp] at hc
      rw [show ("unnamed_file".data).getLast? = some 'e' from by decide,
        Option.some.injEq] at hc
      rw [← hc]
      decide
    · rw [if_neg hemp] at hc
      exact pyStripOn_last_not _ _ c hc
  have hyne : y.data ≠ [] := by
    rw [hy, hf4]
    by_cases hemp : f3.isEmpty = true
    · rw [if_pos hemp]; decide
    · rw [if_neg hemp]
      simpa using hemp
  have hstep : sanitize_filename y = y := by
    have hdata := sanitize_filename_data y
    have hrr : replaceReserved y.data = y.data := replaceReserved_noop _ hyclean
    have hsds : stripDotSpace y.data = y.data := by
      unfold stripDotSpace
      exact pyStripOn_eq_self _ _ hhead hlast
    have : (sanitize_filename y).data = y.data := by
      have hsel : (if urlSchemeStart y.data then urlDerivedName y.data else y.data) =
          y.data := by
        rw [hyurl]
        simp
      rw [hdata, hsel, hrr, hsds]
      rw [if_neg (by simpa using hyne)]
      refine truncate255_short _ ?_
      show y.data.length ≤ 255
      exact hylen
    exact String.ext this
  exact hstep

/-- Witness for `sanitize_props`: the scenario-3 attachment name is a
fixed point of the sanitizer and stays within the bound. -/
theorem sanitize_props_witness :
    (sanitize_filename "my file:name?.txt").length ≤ 255 ∧
    sanitize_filename (sanitize_filename "my file:name?.txt") =
      sanitize_filename "my file:name?.txt" :=
  (sanitize_props "my file:name?.txt").2 (by decide) (by decide)

end Theorems

